import Mathlib

/-!
Shallow embedding of the client-side filtering, search and sorting pipeline of
the fragrances-jamaica storefront (src/hooks/useProducts.ts and
src/types/product.ts), together with proofs about the claims of its design
specification.

Modelling conventions:
* JavaScript numbers that hold prices are modelled as `Int` (the code only
  compares and subtracts them).
* Strings are Lean `String`; `localeCompare` is modelled as the linear order
  on `String`.
* `Array.prototype.sort` with a comparator `c` is required by ECMA-262 to be a
  stable sort consistent with `c`; for a consistent comparator the output of a
  stable sort is uniquely determined, so it is modelled by a stable insertion
  sort `sortS le` with `le a b := (c a b ≤ 0)`.
* JavaScript truthiness tests on nullable strings (`if (filters.brand)`,
  `p.type && ...`) are modelled faithfully: `none` and `some ""` are falsy.
* The Fuse.js search index is external to the repository; the pipeline only
  consumes its id-set, so it is an abstract parameter
  `searchIds : String → List String`.
-/

/-- Product-level gender: `"men" | "women" | "unisex"` (types/product.ts). -/
inductive PGender where
  | men
  | women
  | unisex
  deriving DecidableEq, Repr

/-- Filter-level gender: `"all" | "men" | "women" | "unisex"` (types/product.ts). -/
inductive Gender where
  | all
  | men
  | women
  | unisex
  deriving DecidableEq, Repr

/-- The string comparison `p.gender === filters.gender` performs: product
genders embed into filter genders. -/
def PGender.toG : PGender → Gender
  | .men => .men
  | .women => .women
  | .unisex => .unisex

/-- Sort options (types/product.ts): `"name-asc" | "name-desc" | "price-asc" |
"price-desc" | "brand-asc"`. -/
inductive SortOption where
  | nameAsc
  | nameDesc
  | priceAsc
  | priceDesc
  | brandAsc
  deriving DecidableEq, Repr

/-- Product record (types/product.ts). -/
structure Product where
  id : String
  raw_name : String
  brand : String
  name : String
  size : Option String
  type : Option String
  gender : PGender
  price : Option Int
  upc : String
  is_gift_set : Bool
  is_tester : Bool
  image_url : Option String
  has_image : Bool
  deriving DecidableEq, Repr

/-- Filter state (types/product.ts). -/
structure FilterState where
  gender : Gender
  search : String
  brand : Option String
  priceRange : Int × Int
  types : List String
  sizes : List String
  sort : SortOption
  deriving DecidableEq, Repr

/-- `DEFAULT_FILTERS` of useProducts.ts. -/
def DEFAULT_FILTERS : FilterState :=
  { gender := .all
    search := ""
    brand := none
    priceRange := (0, 1000)
    types := []
    sizes := []
    sort := .brandAsc }

/-- Stable insertion of `x` into `l`: `x` goes before the first element `y`
with `le x y` (so among comparator-ties the earlier-input element stays
first, as ECMA-262 stable sort requires). -/
def insertS (le : α → α → Bool) (x : α) : List α → List α
  | [] => [x]
  | y :: ys => if le x y then x :: y :: ys else y :: insertS le x ys

/-- Stable sort by the boolean relation `le`; models
`Array.prototype.sort(comparator)` with `le a b := comparator a b ≤ 0`. -/
def sortS (le : α → α → Bool) : List α → List α
  | [] => []
  | x :: xs => insertS le x (sortS le xs)

/-- Strict lexicographic order on character lists; the order `localeCompare`
induces on strings is modelled as this codepoint-lexicographic order. -/
def lexLt : List Char → List Char → Bool
  | [], [] => false
  | [], _ :: _ => true
  | _ :: _, [] => false
  | a :: as, b :: bs => if a < b then true else if b < a then false else lexLt as bs

/-- The model of `a.localeCompare(b) < 0`. -/
def strLt (a b : String) : Bool := lexLt a.data b.data

/-- The model of `a.localeCompare(b) ≤ 0`. -/
def strLe (a b : String) : Bool := !(strLt b a)

/-- Comparator-as-`le` of `(a, b) => a.name.localeCompare(b.name)`. -/
def nameAscLe (a b : Product) : Bool := strLe a.name b.name

/-- Comparator-as-`le` of `(a, b) => b.name.localeCompare(a.name)`. -/
def nameDescLe (a b : Product) : Bool := strLe b.name a.name

/-- Comparator-as-`le` of `(a, b) => (a.price ?? 9999) - (b.price ?? 9999)`. -/
def priceAscLe (a b : Product) : Bool := decide (a.price.getD 9999 ≤ b.price.getD 9999)

/-- Comparator-as-`le` of `(a, b) => (b.price ?? 0) - (a.price ?? 0)`. -/
def priceDescLe (a b : Product) : Bool := decide (b.price.getD 0 ≤ a.price.getD 0)

/-- Comparator-as-`le` of
`(a, b) => a.brand.localeCompare(b.brand) || a.name.localeCompare(b.name)`. -/
def brandAscLe (a b : Product) : Bool :=
  strLt a.brand b.brand || (a.brand == b.brand && strLe a.name b.name)

/-- `sortProducts` of useProducts.ts: copies the list and sorts it with the
comparator selected by `sort`. -/
def sortProducts (products : List Product) (sort : SortOption) : List Product :=
  match sort with
  | .nameAsc => sortS nameAscLe products
  | .nameDesc => sortS nameDescLe products
  | .priceAsc => sortS priceAscLe products
  | .priceDesc => sortS priceDescLe products
  | .brandAsc => sortS brandAscLe products

/-- JavaScript truthiness of a nullable string: `null` and `""` are falsy. -/
def truthyS : Option String → Bool
  | none => false
  | some s => !(s == "")

/-- Step 6 of the pipeline (useProducts.ts lines 87-90): keep a product iff its
price is null or lies in the closed range. -/
def pricePredicate (range : Int × Int) (p : Product) : Bool :=
  match p.price with
  | none => true
  | some v => decide (range.1 ≤ v) && decide (v ≤ range.2)

/-- Step 1 of the pipeline (useProducts.ts lines 60-62): gender filter,
skipped when the selected gender is `all`. -/
def genderStep (fs : FilterState) (l : List Product) : List Product :=
  if fs.gender ≠ Gender.all then l.filter (fun p => p.gender.toG == fs.gender) else l

/-- Step 2 of the pipeline (useProducts.ts lines 65-69): fuzzy search by id
membership, applied only when the debounced text has length at least 2. -/
def searchStep (searchIds : String → List String) (d : String) (l : List Product) :
    List Product :=
  if d.length ≥ 2 then l.filter (fun p => (searchIds d).contains p.id) else l

/-- Step 3 of the pipeline (useProducts.ts lines 72-74): brand filter, applied
only when `filters.brand` is truthy. -/
def brandStep (fs : FilterState) (l : List Product) : List Product :=
  if truthyS fs.brand then l.filter (fun p => p.brand == fs.brand.getD "") else l

/-- Step 4 of the pipeline (useProducts.ts lines 77-79): type filter; the
`type` field of the product must itself be truthy and selected. -/
def typeStep (fs : FilterState) (l : List Product) : List Product :=
  if fs.types.length > 0 then
    l.filter (fun p => truthyS p.type && fs.types.contains (p.type.getD ""))
  else l

/-- Step 5 of the pipeline (useProducts.ts lines 82-84): size filter,
analogous to the type filter. -/
def sizeStep (fs : FilterState) (l : List Product) : List Product :=
  if fs.sizes.length > 0 then
    l.filter (fun p => truthyS p.size && fs.sizes.contains (p.size.getD ""))
  else l

/-- Steps 1-5 of the filtering pipeline of useProducts.ts (gender, fuzzy
search, brand, type, size), before the price step. `searchIds q` abstracts
the set of matching ids returned by `searchIndex.search(q)`; `d` is the
debounced search text. -/
def prePrice (allProducts : List Product) (searchIds : String → List String)
    (fs : FilterState) (d : String) : List Product :=
  sizeStep fs (typeStep fs (brandStep fs (searchStep searchIds d (genderStep fs allProducts))))

/-- The whole memoized pipeline `filteredProducts` of useProducts.ts:
steps 1-5, then the price step, then `sortProducts`. -/
def filteredProducts (allProducts : List Product) (searchIds : String → List String)
    (fs : FilterState) (d : String) : List Product :=
  sortProducts ((prePrice allProducts searchIds fs d).filter (pricePredicate fs.priceRange))
    fs.sort

/-- `setGender` of useProducts.ts. -/
def setGender (g : Gender) (fs : FilterState) : FilterState := { fs with gender := g }

/-- `setSearch` of useProducts.ts. -/
def setSearch (s : String) (fs : FilterState) : FilterState := { fs with search := s }

/-- `setBrand` of useProducts.ts. -/
def setBrand (b : Option String) (fs : FilterState) : FilterState := { fs with brand := b }

/-- `setPriceRange` of useProducts.ts. -/
def setPriceRange (r : Int × Int) (fs : FilterState) : FilterState := { fs with priceRange := r }

/-- `setSort` of useProducts.ts. -/
def setSort (s : SortOption) (fs : FilterState) : FilterState := { fs with sort := s }

/-- The list update shared by `toggleType` and `toggleSize` of useProducts.ts:
remove the value if present, append it otherwise. -/
def toggleList (l : List String) (v : String) : List String :=
  if l.contains v then l.filter (fun x => decide (x ≠ v)) else l ++ [v]

/-- `toggleType` of useProducts.ts. -/
def toggleType (t : String) (fs : FilterState) : FilterState :=
  { fs with types := toggleList fs.types t }

/-- `toggleSize` of useProducts.ts. -/
def toggleSize (s : String) (fs : FilterState) : FilterState :=
  { fs with sizes := toggleList fs.sizes s }

/-- `clearFilters` of useProducts.ts. -/
def clearFilters (_ : FilterState) : FilterState := DEFAULT_FILTERS

/-- `activeFilterCount` of useProducts.ts (lines 140-149). -/
def activeFilterCount (fs : FilterState) : Nat :=
  (if fs.gender ≠ Gender.all then 1 else 0) +
  (if fs.search.length ≥ 2 then 1 else 0) +
  (if truthyS fs.brand then 1 else 0) +
  (if fs.types.length > 0 then fs.types.length else 0) +
  (if fs.sizes.length > 0 then fs.sizes.length else 0) +
  (if fs.priceRange.1 > 0 ∨ fs.priceRange.2 < 1000 then 1 else 0)

/-- The count formula as the specification words it:
`1*(gender≠all) + 1*(search valid) + 1*(brand≠null) + |types| + |sizes| +
1*(priceRange≠default)`. -/
def specActiveFilterCount (fs : FilterState) : Nat :=
  (if fs.gender ≠ Gender.all then 1 else 0) +
  (if fs.search.length ≥ 2 then 1 else 0) +
  (if fs.brand ≠ none then 1 else 0) +
  fs.types.length +
  fs.sizes.length +
  (if fs.priceRange ≠ (0, 1000) then 1 else 0)

/-- Does a product list place all null-price products after all
non-null-price products? True iff the list is a block of known prices
followed by a block of null prices. -/
def nullsLast (l : List Product) : Bool :=
  (l.dropWhile (fun p => p.price.isSome)).all (fun p => p.price.isNone)

/-- A handy concrete product for tests and counterexamples. -/
def mkP (id brand name : String) (price : Option Int) (g : PGender) : Product :=
  { id := id
    raw_name := name
    brand := brand
    name := name
    size := none
    type := none
    gender := g
    price := price
    upc := ""
    is_gift_set := false
    is_tester := false
    image_url := none
    has_image := false }

/-- Modelled from the spec: the useDebounce hook (src/hooks/useDebounce.ts is
imported by useProducts.ts but is not part of the available source tree).
Trailing-edge debounce: a keystroke `(t, v)` schedules a commit of `v` at
`t + delay`; the next keystroke, if it arrives strictly within the window,
cancels and reschedules the pending timer; teardown at time `horizon` cancels
any pending timer, so a commit only fires when its deadline is at most
`horizon`. `keys` is the time-ordered keystroke sequence; the result is the
sequence of committed (propagated) values, i.e. the downstream
recomputations. -/
def debounceCommits (delay : Nat) (horizon : Nat) : List (Nat × String) → List (Nat × String)
  | [] => []
  | (t, v) :: rest =>
    let fired :=
      (match rest with
        | [] => true
        | (t2, _) :: _ => decide (t + delay ≤ t2)) && decide (t + delay ≤ horizon)
    (if fired then [(t + delay, v)] else []) ++ debounceCommits delay horizon rest

/-! ## Order lemmas for the string comparison -/

theorem lexLt_irrefl (l : List Char) : lexLt l l = false := by
  induction l with
  | nil => rfl
  | cons a as ih => simp [lexLt, lt_irrefl, ih]

theorem lexLt_asymm : ∀ {a b : List Char}, lexLt a b = true → lexLt b a = false
  | [], [], h => by simp [lexLt] at h
  | [], _ :: _, _ => by simp [lexLt]
  | _ :: _, [], h => by simp [lexLt] at h
  | x :: xs, y :: ys, h => by
    simp only [lexLt] at h ⊢
    by_cases hxy : x < y
    · simp [hxy, lt_asymm hxy]
    · by_cases hyx : y < x
      · simp [hxy, hyx] at h
      · simp only [if_neg hxy, if_neg hyx] at h ⊢
        exact lexLt_asymm h

theorem lexLt_nil_right : ∀ (l : List Char), lexLt l [] = false
  | [] => rfl
  | _ :: _ => rfl

theorem lexLt_conn : ∀ {a b : List Char}, lexLt a b = false → lexLt b a = false → a = b
  | [], [], _, _ => rfl
  | [], _ :: _, h, _ => by simp [lexLt] at h
  | _ :: _, [], _, h => by simp [lexLt] at h
  | x :: xs, y :: ys, h, h2 => by
    simp only [lexLt] at h h2
    by_cases hxy : x < y
    · simp [hxy] at h
    · by_cases hyx : y < x
      · simp [hyx, if_neg hxy] at h2
      · simp only [if_neg hxy, if_neg hyx] at h h2
        have hx : x = y := le_antisymm (not_lt.mp hyx) (not_lt.mp hxy)
        have := lexLt_conn h h2
        rw [hx, this]

theorem lexLt_trans : ∀ {a b c : List Char},
    lexLt a b = true → lexLt b c = true → lexLt a c = true
  | [], _ :: _, _ :: _, _, _ => by simp [lexLt]
  | [], b, [], _, h2 => by rw [lexLt_nil_right b] at h2; cases h2
  | [], [], _, h, _ => by simp [lexLt] at h
  | _ :: _, [], _, h, _ => by simp [lexLt] at h
  | _ :: _, _ :: _, [], _, h2 => by simp [lexLt] at h2
  | x :: xs, y :: ys, z :: zs, h, h2 => by
    simp only [lexLt] at h h2 ⊢
    by_cases hxy : x < y
    · by_cases hyz : y < z
      · simp [lt_trans hxy hyz]
      · by_cases hzy : z < y
        · simp [hyz, hzy] at h2
        · have : y = z := le_antisymm (not_lt.mp hzy) (not_lt.mp hyz)
          subst this
          simp [hxy]
    · by_cases hyx : y < x
      · simp [hxy, hyx] at h
      · have hxyeq : x = y := le_antisymm (not_lt.mp hyx) (not_lt.mp hxy)
        subst hxyeq
        simp only [if_neg hxy, if_neg hyx] at h
        by_cases hyz : x < z
        · simp [hyz]
        · by_cases hzy : z < x
          · simp [hyz, hzy] at h2
          · simp only [if_neg hyz, if_neg hzy] at h2 ⊢
            exact lexLt_trans h h2

theorem str_ext {a b : String} (h : a.data = b.data) : a = b := by
  cases a
  cases b
  exact congrArg String.mk h

theorem strLe_total (a b : String) : strLe a b = true ∨ strLe b a = true := by
  cases hx : lexLt b.data a.data with
  | false => exact Or.inl (by simp [strLe, strLt, hx])
  | true => exact Or.inr (by simp [strLe, strLt, lexLt_asymm hx])

theorem strLe_trans {a b c : String} (h : strLe a b = true) (h2 : strLe b c = true) :
    strLe a c = true := by
  cases hba : lexLt b.data a.data with
  | true => simp [strLe, strLt, hba] at h
  | false =>
    cases hcb : lexLt c.data b.data with
    | true => simp [strLe, strLt, hcb] at h2
    | false =>
      cases hca : lexLt c.data a.data with
      | false => simp [strLe, strLt, hca]
      | true =>
        cases hab : lexLt a.data b.data with
        | true => simp [lexLt_trans hca hab] at hcb
        | false =>
          have he : a.data = b.data := lexLt_conn hab hba
          rw [← he, hca] at hcb
          cases hcb

theorem strLe_antisymm {a b : String} (h : strLe a b = true) (h2 : strLe b a = true) :
    a = b := by
  cases hba : lexLt b.data a.data with
  | true => simp [strLe, strLt, hba] at h
  | false =>
    cases hab : lexLt a.data b.data with
    | true => simp [strLe, strLt, hab] at h2
    | false => exact str_ext (lexLt_conn hab hba)

theorem strLt_asymm {a b : String} (h : strLt a b = true) : strLt b a = false :=
  lexLt_asymm h

theorem strLt_conn {a b : String} (h : strLt a b = false) (h2 : strLt b a = false) :
    a = b := str_ext (lexLt_conn h h2)

theorem strLt_trans {a b c : String} (h : strLt a b = true) (h2 : strLt b c = true) :
    strLt a c = true := lexLt_trans h h2

/-! ## Generic lemmas for the stable sort -/

theorem insertS_perm (le : α → α → Bool) (x : α) (l : List α) :
    (insertS le x l).Perm (x :: l) := by
  induction l with
  | nil => exact List.Perm.refl _
  | cons y ys ih =>
    by_cases h : le x y
    · simp [insertS, h]
    · simp only [insertS, if_neg h]
      exact (ih.cons y).trans (List.Perm.swap x y ys)

theorem sortS_perm (le : α → α → Bool) (l : List α) : (sortS le l).Perm l := by
  induction l with
  | nil => exact List.Perm.refl _
  | cons x xs ih => exact (insertS_perm le x (sortS le xs)).trans (ih.cons x)

theorem mem_insertS (le : α → α → Bool) (x : α) (l : List α) (b : α) :
    b ∈ insertS le x l ↔ b = x ∨ b ∈ l := by
  rw [(insertS_perm le x l).mem_iff]
  simp

theorem pairwise_insertS (le : α → α → Bool)
    (htot : ∀ a b, le a b = true ∨ le b a = true)
    (htrans : ∀ a b c, le a b = true → le b c = true → le a c = true)
    (x : α) {l : List α} (hl : l.Pairwise (fun a b => le a b = true)) :
    (insertS le x l).Pairwise (fun a b => le a b = true) := by
  induction l with
  | nil => simp [insertS]
  | cons y ys ih =>
    rcases List.pairwise_cons.mp hl with ⟨hy, hys⟩
    by_cases h : le x y
    · simp only [insertS, if_pos h]
      refine List.pairwise_cons.mpr ⟨?_, hl⟩
      intro b hb
      rcases List.mem_cons.mp hb with rfl | hb
      · exact h
      · exact htrans x y b h (hy b hb)
    · simp only [insertS, if_neg h]
      refine List.pairwise_cons.mpr ⟨?_, ih hys⟩
      intro b hb
      rcases (mem_insertS le x ys b).mp hb with rfl | hb
      · rcases htot b y with hby | hyb
        · exact absurd hby h
        · exact hyb
      · exact hy b hb

theorem pairwise_sortS (le : α → α → Bool)
    (htot : ∀ a b, le a b = true ∨ le b a = true)
    (htrans : ∀ a b c, le a b = true → le b c = true → le a c = true)
    (l : List α) : (sortS le l).Pairwise (fun a b => le a b = true) := by
  induction l with
  | nil => exact List.Pairwise.nil
  | cons x xs ih => exact pairwise_insertS le htot htrans x ih

theorem eq_of_perm_of_pairwise {R : α → α → Prop} :
    ∀ {l₁ l₂ : List α}, l₁.Perm l₂ → l₁.Pairwise R → l₂.Pairwise R →
      (∀ a ∈ l₁, ∀ b ∈ l₁, R a b → R b a → a = b) → l₁ = l₂ := by
  intro l₁
  induction l₁ with
  | nil =>
    intro l₂ hp _ _ _
    exact hp.nil_eq
  | cons x xs ih =>
    intro l₂ hp h₁ h₂ anti
    cases l₂ with
    | nil => exact absurd hp.symm.nil_eq (by simp)
    | cons y ys =>
      rcases List.pairwise_cons.mp h₁ with ⟨hx1, hxs⟩
      rcases List.pairwise_cons.mp h₂ with ⟨hy2, hys⟩
      have hxy : x = y := by
        rcases List.mem_cons.mp (hp.mem_iff.mp (List.mem_cons_self x xs)) with hxy | hxmem
        · exact hxy
        · rcases List.mem_cons.mp (hp.symm.mem_iff.mp (List.mem_cons_self y ys)) with hyx | hymem
          · exact hyx.symm
          · exact anti x (List.mem_cons_self x xs) y (List.mem_cons.mpr (Or.inr hymem))
              (hx1 y hymem) (hy2 x hxmem)
      subst hxy
      have htail : xs.Perm ys := hp.cons_inv
      have : xs = ys := by
        refine ih htail hxs hys ?_
        intro a ha b hb
        exact anti a (List.mem_cons.mpr (Or.inr ha)) b (List.mem_cons.mpr (Or.inr hb))
      rw [this]

theorem nullsLast_of_pairwise {l : List Product}
    (h : l.Pairwise (fun a b => a.price = none → b.price = none)) :
    nullsLast l = true := by
  induction l with
  | nil => rfl
  | cons x xs ih =>
    rcases List.pairwise_cons.mp h with ⟨hx, hxs⟩
    by_cases hp : x.price.isSome
    · have : nullsLast (x :: xs) = nullsLast xs := by
        simp [nullsLast, List.dropWhile, hp]
      rw [this]
      exact ih hxs
    · have hnone : x.price = none := Option.not_isSome_iff_eq_none.mp hp
      simp only [nullsLast, List.dropWhile, hp]
      simp only [List.all_cons, Bool.and_eq_true, List.all_eq_true]
      constructor
      · simp [Option.isNone, hnone]
      · intro b hb
        simp [Option.isNone_iff_eq_none, hx b hb hnone]

/-! ## Pipeline helper lemmas -/

theorem sortProducts_perm (l : List Product) (s : SortOption) :
    (sortProducts l s).Perm l := by
  cases s <;> exact sortS_perm _ l

theorem mem_sortProducts {l : List Product} {s : SortOption} {p : Product} :
    p ∈ sortProducts l s ↔ p ∈ l :=
  (sortProducts_perm l s).mem_iff

theorem contains_iff {l : List String} {a : String} : l.contains a = true ↔ a ∈ l :=
  List.elem_iff

theorem ite_filter_sublist (c : Prop) [Decidable c] (l : List α) (q : α → Bool) :
    (if c then l.filter q else l).Sublist l := by
  by_cases h : c
  · rw [if_pos h]
    exact List.filter_sublist l
  · simp [h]

theorem truthyS_iff (b : Option String) : truthyS b = true ↔ b ≠ none ∧ b ≠ some "" := by
  cases b with
  | none => simp [truthyS]
  | some s =>
    by_cases hs : s = ""
    · subst hs
      simp [truthyS]
    · simp [truthyS, hs]

theorem genderStep_sublist (fs : FilterState) (l : List Product) :
    (genderStep fs l).Sublist l := ite_filter_sublist _ l _

theorem searchStep_sublist (idx : String → List String) (d : String) (l : List Product) :
    (searchStep idx d l).Sublist l := ite_filter_sublist _ l _

theorem brandStep_sublist (fs : FilterState) (l : List Product) :
    (brandStep fs l).Sublist l := ite_filter_sublist _ l _

theorem typeStep_sublist (fs : FilterState) (l : List Product) :
    (typeStep fs l).Sublist l := ite_filter_sublist _ l _

theorem sizeStep_sublist (fs : FilterState) (l : List Product) :
    (sizeStep fs l).Sublist l := ite_filter_sublist _ l _

theorem prePrice_sublist (allP : List Product) (idx : String → List String)
    (fs : FilterState) (d : String) : (prePrice allP idx fs d).Sublist allP :=
  ((((sizeStep_sublist fs _).trans (typeStep_sublist fs _)).trans
    (brandStep_sublist fs _)).trans (searchStep_sublist idx d _)).trans
    (genderStep_sublist fs allP)

theorem eq_of_name_eq {l : List Product} (h : l.Pairwise (fun a b => a.name ≠ b.name)) :
    ∀ a ∈ l, ∀ b ∈ l, a.name = b.name → a = b := by
  induction l with
  | nil => intro a ha; cases ha
  | cons x xs ih =>
    rcases List.pairwise_cons.mp h with ⟨hx, hxs⟩
    intro a ha b hb hn
    rcases List.mem_cons.mp ha with rfl | ha2
    · rcases List.mem_cons.mp hb with rfl | hb2
      · rfl
      · exact absurd hn (hx b hb2)
    · rcases List.mem_cons.mp hb with rfl | hb2
      · exact absurd hn.symm (hx a ha2)
      · exact ih hxs a ha2 b hb2 hn

theorem mem_toggleList (l : List String) (t x : String) :
    x ∈ toggleList l t ↔ (x ∈ l ∧ x ≠ t) ∨ (x = t ∧ t ∉ l) := by
  by_cases hc : l.contains t
  · simp only [toggleList, if_pos hc, List.mem_filter, decide_eq_true_eq]
    have ht : t ∈ l := contains_iff.mp hc
    constructor
    · exact fun h2 => Or.inl h2
    · rintro (h2 | ⟨rfl, h2⟩)
      · exact h2
      · exact absurd ht h2
  · have ht : t ∉ l := fun hm => hc (contains_iff.mpr hm)
    simp only [toggleList, if_neg hc, List.mem_append, List.mem_singleton]
    constructor
    · rintro (h2 | rfl)
      · exact Or.inl ⟨h2, fun he => ht (he ▸ h2)⟩
      · exact Or.inr ⟨rfl, ht⟩
    · rintro (⟨h2, _⟩ | ⟨rfl, _⟩)
      · exact Or.inl h2
      · exact Or.inr rfl

theorem toggleList_nodup {l : List String} (h : l.Nodup) (t : String) :
    (toggleList l t).Nodup := by
  by_cases hc : l.contains t
  · simp only [toggleList, if_pos hc]
    exact h.filter _
  · have ht : t ∉ l := fun hm => hc (contains_iff.mpr hm)
    simp only [toggleList, if_neg hc, List.nodup_append]
    refine ⟨h, List.nodup_singleton t, ?_⟩
    intro a ha hb
    rw [List.mem_singleton] at hb
    exact ht (hb ▸ ha)

theorem nameAscLe_total (a b : Product) : nameAscLe a b = true ∨ nameAscLe b a = true :=
  strLe_total a.name b.name

theorem nameAscLe_trans (a b c : Product) (h : nameAscLe a b = true)
    (h2 : nameAscLe b c = true) : nameAscLe a c = true :=
  strLe_trans h h2

theorem nameDescLe_total (a b : Product) : nameDescLe a b = true ∨ nameDescLe b a = true :=
  strLe_total b.name a.name

theorem nameDescLe_trans (a b c : Product) (h : nameDescLe a b = true)
    (h2 : nameDescLe b c = true) : nameDescLe a c = true :=
  strLe_trans h2 h

theorem priceAscLe_total (a b : Product) : priceAscLe a b = true ∨ priceAscLe b a = true := by
  simp only [priceAscLe, decide_eq_true_eq]
  exact le_total _ _

theorem priceAscLe_trans (a b c : Product) (h : priceAscLe a b = true)
    (h2 : priceAscLe b c = true) : priceAscLe a c = true := by
  simp only [priceAscLe, decide_eq_true_eq] at h h2 ⊢
  exact le_trans h h2

theorem priceDescLe_total (a b : Product) :
    priceDescLe a b = true ∨ priceDescLe b a = true := by
  simp only [priceDescLe, decide_eq_true_eq]
  exact le_total _ _

theorem priceDescLe_trans (a b c : Product) (h : priceDescLe a b = true)
    (h2 : priceDescLe b c = true) : priceDescLe a c = true := by
  simp only [priceDescLe, decide_eq_true_eq] at h h2 ⊢
  exact le_trans h2 h

/-! ## Claims -/

/-- C3: the price predicate keeps a product iff its price is null or lies
within the closed range; in particular a null-price product is never excluded
by the price step of the pipeline, whatever the price range. -/
theorem C3_price_null_unconstrained (p : Product) (lo hi : Int) :
    (pricePredicate (lo, hi) p = true ↔
      (p.price = none ∨ ∃ v, p.price = some v ∧ lo ≤ v ∧ v ≤ hi)) ∧
    (p.price = none → ∀ (allP : List Product) (idx : String → List String)
      (fs : FilterState) (d : String),
      (p ∈ filteredProducts allP idx fs d ↔ p ∈ prePrice allP idx fs d)) := by
  constructor
  · cases hp : p.price with
    | none => simp [pricePredicate, hp]
    | some v => simp [pricePredicate, hp, decide_eq_true_eq]
  · intro hnone allP idx fs d
    rw [filteredProducts, mem_sortProducts, List.mem_filter]
    constructor
    · exact fun h2 => h2.1
    · intro h2
      refine ⟨h2, ?_⟩
      simp [pricePredicate, hnone]

/-- Witness for C3 at a concrete null-price product and repository. -/
theorem C3_price_null_unconstrained_witness :
    mkP "w" "A" "a" none .men ∈
        filteredProducts [mkP "w" "A" "a" none .men] (fun _ => []) DEFAULT_FILTERS "" ↔
      mkP "w" "A" "a" none .men ∈
        prePrice [mkP "w" "A" "a" none .men] (fun _ => []) DEFAULT_FILTERS "" :=
  (C3_price_null_unconstrained (mkP "w" "A" "a" none .men) 0 1000).2 rfl
    [mkP "w" "A" "a" none .men] (fun _ => []) DEFAULT_FILTERS ""

/-- C2 as stated is false at two inputs. With every filter at its default
except priceRange = (0, 2000), the code reports 0 active filters (its test is
`lo > 0 || hi < 1000`), while the claimed formula, whose last term tests
`priceRange ≠ default`, yields 1. With every filter at its default except
brand = the empty string, the code again reports 0 (the empty string is
falsy), while the claimed `brand ≠ null` term yields 1. -/
theorem C2_count_counterexample :
    (activeFilterCount { DEFAULT_FILTERS with priceRange := (0, 2000) } = 0 ∧
      specActiveFilterCount { DEFAULT_FILTERS with priceRange := (0, 2000) } = 1 ∧
      activeFilterCount { DEFAULT_FILTERS with priceRange := (0, 2000) } ≠
        specActiveFilterCount { DEFAULT_FILTERS with priceRange := (0, 2000) }) ∧
    (activeFilterCount { DEFAULT_FILTERS with brand := some "" } = 0 ∧
      specActiveFilterCount { DEFAULT_FILTERS with brand := some "" } = 1 ∧
      activeFilterCount { DEFAULT_FILTERS with brand := some "" } ≠
        specActiveFilterCount { DEFAULT_FILTERS with brand := some "" }) := by
  refine ⟨⟨by decide, by decide, by decide⟩, ⟨by decide, by decide, by decide⟩⟩

/-- C2 amended: activeFilterCount equals 1*(gender ≠ all) + 1*(search length
≥ 2) + 1*(brand truthy, i.e. non-null and non-empty) + |types| + |sizes| +
1*(priceRange.lo > 0 or priceRange.hi < 1000). -/
theorem C2_count_amended (fs : FilterState) :
    activeFilterCount fs =
      (if fs.gender ≠ Gender.all then 1 else 0) +
      (if fs.search.length ≥ 2 then 1 else 0) +
      (if fs.brand ≠ none ∧ fs.brand ≠ some "" then 1 else 0) +
      fs.types.length + fs.sizes.length +
      (if 0 < fs.priceRange.1 ∨ fs.priceRange.2 < 1000 then 1 else 0) := by
  have hts : ∀ n : Nat, (if n > 0 then n else 0) = n := by
    intro n
    by_cases h : n > 0
    · simp [h]
    · simp [h, Nat.le_zero.mp (Nat.not_lt.mp h)]
  have hbr : (if truthyS fs.brand then (1 : Nat) else 0) =
      (if fs.brand ≠ none ∧ fs.brand ≠ some "" then 1 else 0) := by
    by_cases h : truthyS fs.brand = true
    · rw [if_pos h, if_pos ((truthyS_iff fs.brand).mp h)]
    · rw [if_neg h, if_neg (fun hc => h ((truthyS_iff fs.brand).mpr hc))]
  simp only [activeFilterCount, hts, hbr]

/-- C7: each mutation operation replaces exactly its named field and leaves
every other field of the FilterState unchanged. -/
theorem C7_setters_frame (fs : FilterState) (g : Gender) (s : String)
    (b : Option String) (r : Int × Int) (so : SortOption) (tv sv : String) :
    ((setGender g fs).gender = g ∧ (setGender g fs).search = fs.search ∧
      (setGender g fs).brand = fs.brand ∧ (setGender g fs).priceRange = fs.priceRange ∧
      (setGender g fs).types = fs.types ∧ (setGender g fs).sizes = fs.sizes ∧
      (setGender g fs).sort = fs.sort) ∧
    ((setSearch s fs).search = s ∧ (setSearch s fs).gender = fs.gender ∧
      (setSearch s fs).brand = fs.brand ∧ (setSearch s fs).priceRange = fs.priceRange ∧
      (setSearch s fs).types = fs.types ∧ (setSearch s fs).sizes = fs.sizes ∧
      (setSearch s fs).sort = fs.sort) ∧
    ((setBrand b fs).brand = b ∧ (setBrand b fs).gender = fs.gender ∧
      (setBrand b fs).search = fs.search ∧ (setBrand b fs).priceRange = fs.priceRange ∧
      (setBrand b fs).types = fs.types ∧ (setBrand b fs).sizes = fs.sizes ∧
      (setBrand b fs).sort = fs.sort) ∧
    ((setPriceRange r fs).priceRange = r ∧ (setPriceRange r fs).gender = fs.gender ∧
      (setPriceRange r fs).search = fs.search ∧ (setPriceRange r fs).brand = fs.brand ∧
      (setPriceRange r fs).types = fs.types ∧ (setPriceRange r fs).sizes = fs.sizes ∧
      (setPriceRange r fs).sort = fs.sort) ∧
    ((setSort so fs).sort = so ∧ (setSort so fs).gender = fs.gender ∧
      (setSort so fs).search = fs.search ∧ (setSort so fs).brand = fs.brand ∧
      (setSort so fs).priceRange = fs.priceRange ∧ (setSort so fs).types = fs.types ∧
      (setSort so fs).sizes = fs.sizes) ∧
    ((toggleType tv fs).types = toggleList fs.types tv ∧
      (toggleType tv fs).gender = fs.gender ∧ (toggleType tv fs).search = fs.search ∧
      (toggleType tv fs).brand = fs.brand ∧ (toggleType tv fs).priceRange = fs.priceRange ∧
      (toggleType tv fs).sizes = fs.sizes ∧ (toggleType tv fs).sort = fs.sort) ∧
    ((toggleSize sv fs).sizes = toggleList fs.sizes sv ∧
      (toggleSize sv fs).gender = fs.gender ∧ (toggleSize sv fs).search = fs.search ∧
      (toggleSize sv fs).brand = fs.brand ∧ (toggleSize sv fs).priceRange = fs.priceRange ∧
      (toggleSize sv fs).types = fs.types ∧ (toggleSize sv fs).sort = fs.sort) :=
  ⟨⟨rfl, rfl, rfl, rfl, rfl, rfl, rfl⟩, ⟨rfl, rfl, rfl, rfl, rfl, rfl, rfl⟩,
    ⟨rfl, rfl, rfl, rfl, rfl, rfl, rfl⟩, ⟨rfl, rfl, rfl, rfl, rfl, rfl, rfl⟩,
    ⟨rfl, rfl, rfl, rfl, rfl, rfl, rfl⟩, ⟨rfl, rfl, rfl, rfl, rfl, rfl, rfl⟩,
    ⟨rfl, rfl, rfl, rfl, rfl, rfl, rfl⟩⟩

/-- C6: toggling a type twice returns the types collection to its original
set of values; a toggle removes the value when present and appends it when
absent; and no duplicates ever accumulate in types or sizes under any
sequence of toggle operations starting from the default state. -/
theorem C6_toggle_involution (fs : FilterState) (t : String) :
    (∀ x, x ∈ (toggleType t (toggleType t fs)).types ↔ x ∈ fs.types) ∧
    (t ∈ fs.types → (toggleType t fs).types = fs.types.filter (fun x => decide (x ≠ t))) ∧
    (t ∉ fs.types → (toggleType t fs).types = fs.types ++ [t]) ∧
    (∀ ops : List (FilterState → FilterState),
      (∀ op ∈ ops, ∃ v, op = toggleType v ∨ op = toggleSize v) →
      (ops.foldl (fun st op => op st) DEFAULT_FILTERS).types.Nodup ∧
      (ops.foldl (fun st op => op st) DEFAULT_FILTERS).sizes.Nodup) := by
  refine ⟨?_, ?_, ?_, ?_⟩
  · intro x
    show x ∈ toggleList (toggleList fs.types t) t ↔ x ∈ fs.types
    by_cases hc : fs.types.contains t = true
    · have ht : t ∈ fs.types := contains_iff.mp hc
      have h1 : toggleList fs.types t = fs.types.filter (fun y => decide (y ≠ t)) := by
        simp only [toggleList, if_pos hc]
      have h2 : ¬ ((fs.types.filter (fun y => decide (y ≠ t))).contains t = true) := by
        intro hcc
        have := contains_iff.mp hcc
        simp [List.mem_filter] at this
      have h3 : toggleList (toggleList fs.types t) t =
          fs.types.filter (fun y => decide (y ≠ t)) ++ [t] := by
        rw [h1]
        simp only [toggleList, if_neg h2]
      rw [h3, List.mem_append, List.mem_filter, List.mem_singleton]
      constructor
      · rintro (⟨hm, _⟩ | rfl)
        · exact hm
        · exact ht
      · intro hx
        by_cases hxt : x = t
        · exact Or.inr hxt
        · exact Or.inl ⟨hx, by simp [hxt]⟩
    · have ht : t ∉ fs.types := fun hm => hc (contains_iff.mpr hm)
      have h1 : toggleList fs.types t = fs.types ++ [t] := by
        simp only [toggleList, if_neg hc]
      have h2 : (fs.types ++ [t]).contains t = true := contains_iff.mpr (by simp)
      have h3 : toggleList (toggleList fs.types t) t =
          (fs.types ++ [t]).filter (fun y => decide (y ≠ t)) := by
        rw [h1]
        simp only [toggleList, if_pos h2]
      have h4 : (fs.types ++ [t]).filter (fun y => decide (y ≠ t)) = fs.types := by
        rw [List.filter_append]
        have e1 : fs.types.filter (fun y => decide (y ≠ t)) = fs.types :=
          List.filter_eq_self.mpr (fun a ha => by
            simp only [decide_eq_true_eq]
            exact fun he => ht (he ▸ ha))
        have e2 : ([t] : List String).filter (fun y => decide (y ≠ t)) = [] := by simp
        rw [e1, e2, List.append_nil]
      rw [h3, h4]
  · intro ht
    show toggleList fs.types t = _
    simp only [toggleList, if_pos (contains_iff.mpr ht)]
  · intro ht
    show toggleList fs.types t = _
    simp only [toggleList, if_neg (fun hc => ht (contains_iff.mp hc))]
  · have main : ∀ (ops : List (FilterState → FilterState)),
        (∀ op ∈ ops, ∃ v, op = toggleType v ∨ op = toggleSize v) →
        ∀ st : FilterState, st.types.Nodup → st.sizes.Nodup →
        (ops.foldl (fun st op => op st) st).types.Nodup ∧
        (ops.foldl (fun st op => op st) st).sizes.Nodup := by
      intro ops
      induction ops with
      | nil => exact fun _ st h1 h2 => ⟨h1, h2⟩
      | cons op rest ih =>
        intro hops st h1 h2
        rcases hops op (List.mem_cons_self op rest) with ⟨v, rfl | rfl⟩
        · exact ih (fun o ho => hops o (List.mem_cons.mpr (Or.inr ho)))
            (toggleType v st) (toggleList_nodup h1 v) h2
        · exact ih (fun o ho => hops o (List.mem_cons.mpr (Or.inr ho)))
            (toggleSize v st) h1 (toggleList_nodup h2 v)
    intro ops hops
    exact main ops hops DEFAULT_FILTERS List.nodup_nil List.nodup_nil

/-- Witness for C6 at concrete states: removal when present, append when
absent, and duplicate-freedom after a concrete toggle sequence. -/
theorem C6_toggle_involution_witness :
    (toggleType "edp" { DEFAULT_FILTERS with types := ["edp", "edt"] }).types =
      ["edp", "edt"].filter (fun x => decide (x ≠ "edp")) ∧
    (toggleType "oil" { DEFAULT_FILTERS with types := ["edp"] }).types = ["edp"] ++ ["oil"] ∧
    (([toggleType "edp", toggleSize "100ml", toggleType "edp"].foldl
        (fun st op => op st) DEFAULT_FILTERS).types.Nodup ∧
      ([toggleType "edp", toggleSize "100ml", toggleType "edp"].foldl
        (fun st op => op st) DEFAULT_FILTERS).sizes.Nodup) :=
  ⟨(C6_toggle_involution { DEFAULT_FILTERS with types := ["edp", "edt"] } "edp").2.1
      (by decide),
    (C6_toggle_involution { DEFAULT_FILTERS with types := ["edp"] } "oil").2.2.1
      (by decide),
    (C6_toggle_involution DEFAULT_FILTERS "edp").2.2.2
      [toggleType "edp", toggleSize "100ml", toggleType "edp"]
      (by
        intro op hop
        rcases List.mem_cons.mp hop with rfl | hop2
        · exact ⟨"edp", Or.inl rfl⟩
        rcases List.mem_cons.mp hop2 with rfl | hop3
        · exact ⟨"100ml", Or.inr rfl⟩
        rcases List.mem_cons.mp hop3 with rfl | hop4
        · exact ⟨"edp", Or.inl rfl⟩
        · cases hop4)⟩

/-- C9: an inverted range (lo > hi) is stored verbatim by setPriceRange, with
no error or correction, and the resulting filtered list contains exactly the
products that pass the other filters and have a null price: every product
with a known price is silently excluded. -/
theorem C9_inverted_range (fs : FilterState) (lo hi : Int) (h : hi < lo)
    (allP : List Product) (idx : String → List String) (d : String) :
    (setPriceRange (lo, hi) fs).priceRange = (lo, hi) ∧
    (∀ p, p ∈ filteredProducts allP idx (setPriceRange (lo, hi) fs) d ↔
      (p ∈ prePrice allP idx (setPriceRange (lo, hi) fs) d ∧ p.price = none)) := by
  refine ⟨rfl, ?_⟩
  intro p
  rw [filteredProducts, mem_sortProducts, List.mem_filter]
  have hpred : pricePredicate (setPriceRange (lo, hi) fs).priceRange p = true ↔
      p.price = none := by
    cases hp : p.price with
    | none => simp [pricePredicate, hp]
    | some v =>
      simp only [pricePredicate, hp, setPriceRange, Bool.and_eq_true, decide_eq_true_eq]
      constructor
      · intro hb
        exact absurd (le_trans hb.1 hb.2) (not_le.mpr h)
      · intro hb
        cases hb
  rw [hpred]

/-- Witness for C9: with range (10, 0), a $50 product passes the other
filters but vanishes from the output, while its null-price companion stays. -/
theorem C9_inverted_range_witness :
    (setPriceRange ((10 : Int), (0 : Int)) DEFAULT_FILTERS).priceRange = (10, 0) ∧
    (mkP "1" "A" "a" (some 50) .men ∈
        filteredProducts [mkP "1" "A" "a" (some 50) .men, mkP "2" "B" "b" none .men]
          (fun _ => []) (setPriceRange (10, 0) DEFAULT_FILTERS) "" ↔
      (mkP "1" "A" "a" (some 50) .men ∈
          prePrice [mkP "1" "A" "a" (some 50) .men, mkP "2" "B" "b" none .men]
            (fun _ => []) (setPriceRange (10, 0) DEFAULT_FILTERS) "" ∧
        (mkP "1" "A" "a" (some 50) .men).price = none)) :=
  ⟨(C9_inverted_range DEFAULT_FILTERS 10 0 (by decide)
      [mkP "1" "A" "a" (some 50) .men, mkP "2" "B" "b" none .men] (fun _ => []) "").1,
    (C9_inverted_range DEFAULT_FILTERS 10 0 (by decide)
      [mkP "1" "A" "a" (some 50) .men, mkP "2" "B" "b" none .men] (fun _ => []) "").2
      (mkP "1" "A" "a" (some 50) .men)⟩

/-- C10: sortProducts returns a permutation of its input, and the pipeline
output is a permutation of a sublist of the repository: every output element
occurs in the input and nothing is duplicated or invented. -/
theorem C10_output_conservation (allP : List Product) (idx : String → List String)
    (fs : FilterState) (d : String) (l : List Product) (s : SortOption) :
    (sortProducts l s).Perm l ∧
    ∃ sub : List Product, sub.Sublist allP ∧ (filteredProducts allP idx fs d).Perm sub := by
  refine ⟨sortProducts_perm l s, ⟨(prePrice allP idx fs d).filter
    (pricePredicate fs.priceRange), ?_, sortProducts_perm _ _⟩⟩
  exact (List.filter_sublist _).trans (prePrice_sublist allP idx fs d)

/-- C4: if the debounced text has length at least 2, every product in the
filtered output has its id in the search index match set for that text; if it
has length below 2, the search text does not affect the output at all. -/
theorem C4_search_membership (allP : List Product) (idx : String → List String)
    (fs : FilterState) (d : String) :
    (d.length ≥ 2 → ∀ p ∈ filteredProducts allP idx fs d, p.id ∈ idx d) ∧
    (d.length < 2 → ∀ d2 : String, d2.length < 2 →
      filteredProducts allP idx fs d = filteredProducts allP idx fs d2) := by
  constructor
  · intro hlen p hp
    have h5 : p ∈ prePrice allP idx fs d := by
      rw [filteredProducts, mem_sortProducts, List.mem_filter] at hp
      exact hp.1
    have h2 : p ∈ searchStep idx d (genderStep fs allP) :=
      (brandStep_sublist fs _).mem
        ((typeStep_sublist fs _).mem ((sizeStep_sublist fs _).mem h5))
    rw [searchStep, if_pos hlen, List.mem_filter] at h2
    exact contains_iff.mp h2.2
  · intro hlen d2 hlen2
    have e1 : searchStep idx d (genderStep fs allP) = genderStep fs allP :=
      if_neg (by omega)
    have e2 : searchStep idx d2 (genderStep fs allP) = genderStep fs allP :=
      if_neg (by omega)
    rw [filteredProducts, filteredProducts, prePrice, prePrice, e1, e2]

/-- Witness for C4 at a concrete repository and index: a two-character query
constrains the output ids, and two sub-threshold queries agree. -/
theorem C4_search_membership_witness :
    (mkP "1" "A" "Abc" (some 10) .men).id ∈ (fun _ : String => ["1"]) "ab" ∧
    filteredProducts [mkP "1" "A" "Abc" (some 10) .men] (fun _ => ["1"])
        DEFAULT_FILTERS "a" =
      filteredProducts [mkP "1" "A" "Abc" (some 10) .men] (fun _ => ["1"])
        DEFAULT_FILTERS "" :=
  ⟨(C4_search_membership [mkP "1" "A" "Abc" (some 10) .men] (fun _ => ["1"])
      DEFAULT_FILTERS "ab").1 (by decide) (mkP "1" "A" "Abc" (some 10) .men) (by decide),
    (C4_search_membership [mkP "1" "A" "Abc" (some 10) .men] (fun _ => ["1"])
      DEFAULT_FILTERS "a").2 (by decide) "" (by decide)⟩

/-- C1 as stated is false: under price-desc a null price and a price of 0
both become the sentinel 0, so they tie, and the stable sort leaves the
null-price product first — not strictly after the non-null product. -/
theorem C1_nulls_counterexample :
    sortProducts [mkP "n" "A" "a" none .men, mkP "z" "A" "z" (some 0) .men]
      .priceDesc = [mkP "n" "A" "a" none .men, mkP "z" "A" "z" (some 0) .men] ∧
    nullsLast (sortProducts [mkP "n" "A" "a" none .men, mkP "z" "A" "z" (some 0) .men]
      .priceDesc) = false :=
  ⟨by decide, by decide⟩

/-- C1 amended: price-asc places every null-price product strictly after all
products priced strictly below the 9999 sentinel, and price-desc places every
null-price product strictly after all products priced strictly above the 0
sentinel; a product priced exactly at the relevant sentinel ties with the
null prices and stable input order decides their relative position. -/
theorem C1_nulls_amended (l : List Product) :
    ((∀ p ∈ l, ∀ v : Int, p.price = some v → v < 9999) →
      nullsLast (sortProducts l .priceAsc) = true) ∧
    ((∀ p ∈ l, ∀ v : Int, p.price = some v → 0 < v) →
      nullsLast (sortProducts l .priceDesc) = true) := by
  constructor
  · intro hbound
    have hs : (sortS priceAscLe l).Pairwise (fun a b => priceAscLe a b = true) :=
      pairwise_sortS priceAscLe priceAscLe_total priceAscLe_trans l
    refine nullsLast_of_pairwise (List.Pairwise.imp_of_mem ?_ hs)
    intro a b _ hbm hle hanone
    cases hp : b.price with
    | none => rfl
    | some v =>
      have hbl : b ∈ l := (sortS_perm priceAscLe l).mem_iff.mp hbm
      have hv : v < 9999 := hbound b hbl v hp
      simp only [priceAscLe, hanone, hp, Option.getD_none, Option.getD_some,
        decide_eq_true_eq] at hle
      exact absurd hle (by omega)
  · intro hbound
    have hs : (sortS priceDescLe l).Pairwise (fun a b => priceDescLe a b = true) :=
      pairwise_sortS priceDescLe priceDescLe_total priceDescLe_trans l
    refine nullsLast_of_pairwise (List.Pairwise.imp_of_mem ?_ hs)
    intro a b _ hbm hle hanone
    cases hp : b.price with
    | none => rfl
    | some v =>
      have hbl : b ∈ l := (sortS_perm priceDescLe l).mem_iff.mp hbm
      have hv : 0 < v := hbound b hbl v hp
      simp only [priceDescLe, hanone, hp, Option.getD_none, Option.getD_some,
        decide_eq_true_eq] at hle
      exact absurd hle (by omega)

/-- Witness for C1 amended on a concrete list whose known price avoids both
sentinels. -/
theorem C1_nulls_amended_witness :
    nullsLast (sortProducts [mkP "n" "A" "a" none .men, mkP "p" "B" "b" (some 5) .men]
      .priceAsc) = true ∧
    nullsLast (sortProducts [mkP "n" "A" "a" none .men, mkP "p" "B" "b" (some 5) .men]
      .priceDesc) = true :=
  ⟨(C1_nulls_amended [mkP "n" "A" "a" none .men, mkP "p" "B" "b" (some 5) .men]).1 (by
      intro p hp v hv
      rcases List.mem_cons.mp hp with rfl | hp2
      · cases hv
      rcases List.mem_cons.mp hp2 with rfl | hp3
      · simp [mkP] at hv
        omega
      · cases hp3),
    (C1_nulls_amended [mkP "n" "A" "a" none .men, mkP "p" "B" "b" (some 5) .men]).2 (by
      intro p hp v hv
      rcases List.mem_cons.mp hp with rfl | hp2
      · cases hv
      rcases List.mem_cons.mp hp2 with rfl | hp3
      · simp [mkP] at hv
        omega
      · cases hp3)⟩

/-- C5: on a list of products with pairwise-distinct names, the name-desc
sort is exactly the reverse of the name-asc sort. -/
theorem C5_name_reversal (l : List Product)
    (h : l.Pairwise (fun a b => a.name ≠ b.name)) :
    sortProducts l .nameDesc = (sortProducts l .nameAsc).reverse := by
  have hperm : (sortS nameDescLe l).Perm ((sortS nameAscLe l).reverse) :=
    (sortS_perm nameDescLe l).trans
      (((List.reverse_perm (sortS nameAscLe l)).trans (sortS_perm nameAscLe l)).symm)
  have hp1 : (sortS nameDescLe l).Pairwise (fun a b => nameDescLe a b = true) :=
    pairwise_sortS nameDescLe nameDescLe_total nameDescLe_trans l
  have hp2 : ((sortS nameAscLe l).reverse).Pairwise (fun a b => nameDescLe a b = true) := by
    rw [List.pairwise_reverse]
    exact pairwise_sortS nameAscLe nameAscLe_total nameAscLe_trans l
  show sortS nameDescLe l = (sortS nameAscLe l).reverse
  refine eq_of_perm_of_pairwise hperm hp1 hp2 ?_
  intro a ha b hb hab hba
  have hn : a.name = b.name := strLe_antisymm hba hab
  have hal : a ∈ l := (sortS_perm nameDescLe l).mem_iff.mp ha
  have hbl : b ∈ l := (sortS_perm nameDescLe l).mem_iff.mp hb
  exact eq_of_name_eq h a hal b hbl hn

/-- Witness for C5 on a concrete two-product list with distinct names. -/
theorem C5_name_reversal_witness :
    sortProducts [mkP "1" "A" "b" (some 1) .men, mkP "2" "B" "a" (some 2) .men]
      .nameDesc =
    (sortProducts [mkP "1" "A" "b" (some 1) .men, mkP "2" "B" "a" (some 2) .men]
      .nameAsc).reverse :=
  C5_name_reversal [mkP "1" "A" "b" (some 1) .men, mkP "2" "B" "a" (some 2) .men] (by
    refine List.Pairwise.cons ?_ ?_
    · intro b hb
      rcases List.mem_cons.mp hb with rfl | hb2
      · decide
      · cases hb2
    · exact List.Pairwise.cons (fun b hb => absurd hb (List.not_mem_nil b))
        List.Pairwise.nil)

/-- C8: three rapid search keystrokes within the 200 ms quiescence window
yield exactly one downstream recomputation, carrying the last value; teardown
before the pending deadline cancels the commit entirely; and only the search
field is debounced — the pipeline never reads the raw `search` field, so a
raw setSearch alone cannot change the output. -/
theorem C8_debounce_trailing (t1 t2 t3 horizon : Nat) (v1 v2 v3 : String)
    (h12 : t2 < t1 + 200) (h23 : t3 < t2 + 200) :
    (t3 + 200 ≤ horizon →
      debounceCommits 200 horizon [(t1, v1), (t2, v2), (t3, v3)] = [(t3 + 200, v3)]) ∧
    (horizon < t3 + 200 →
      debounceCommits 200 horizon [(t1, v1), (t2, v2), (t3, v3)] = []) ∧
    (∀ (allP : List Product) (idx : String → List String) (fs : FilterState)
      (d s : String),
      filteredProducts allP idx (setSearch s fs) d = filteredProducts allP idx fs d) := by
  have e1 : decide (t1 + 200 ≤ t2) = false := decide_eq_false (by omega)
  have e2 : decide (t2 + 200 ≤ t3) = false := decide_eq_false (by omega)
  refine ⟨?_, ?_, ?_⟩
  · intro hh
    have e3 : decide (t3 + 200 ≤ horizon) = true := decide_eq_true hh
    simp [debounceCommits, e1, e2, e3]
  · intro hh
    have e3 : decide (t3 + 200 ≤ horizon) = false := decide_eq_false (by omega)
    simp [debounceCommits, e1, e2, e3]
  · intro allP idx fs d s
    rfl

/-- Witness for C8 at concrete keystroke times 0, 100, 150 with a far and a
near teardown horizon. -/
theorem C8_debounce_trailing_witness :
    debounceCommits 200 1000 [(0, "a"), (100, "ab"), (150, "abc")] = [(350, "abc")] ∧
    debounceCommits 200 200 [(0, "a"), (100, "ab"), (150, "abc")] = [] :=
  ⟨(C8_debounce_trailing 0 100 150 1000 "a" "ab" "abc" (by decide) (by decide)).1
      (by decide),
    (C8_debounce_trailing 0 100 150 200 "a" "ab" "abc" (by decide) (by decide)).2.1
      (by decide)⟩
